import Mathlib

/-!
Verification development for the Shiv Fashion Mart submission server
(src/server.js).  The server exposes two routes:

* POST /api/submit — validates the form, uploads each attached image to the
  media host, inserts one row into the submissions table (the link list and
  image-url list JSON-serialized as text), then sends up to two emails.
* GET /admin/submissions — reads all rows ordered by created_at descending
  and JSON-parses the two serialized columns.

The model below is a shallow embedding of that code: JavaScript strings are
Lean String, the SQLite table is a list of rows plus an id counter, the
Cloudinary uploader and the nodemailer transporter are oracles passed in as
an environment, and each external call the handler makes is recorded in an
event trace.
-/

/-! ### JSON serialization of string arrays

The workflow stores the two list-valued columns with JSON.stringify and the
admin listing reads them back with JSON.parse.  JSON.stringify on an array
of strings emits no whitespace and escapes exactly: the quote, the
backslash, the named control escapes (backspace, tab, newline, form feed,
carriage return) and any other control character below 0x20 as a lowercase
u00XX escape.  The parser below accepts exactly the grammar of JSON arrays
of string literals with no interior whitespace — the only texts the
workflow ever writes.  Any other text is treated as a parse failure,
modelling the SyntaxError that JSON.parse throws on malformed input. -/

def hexDigit (n : Nat) : Char :=
  if n < 10 then Char.ofNat (48 + n) else Char.ofNat (87 + n)

def hexVal (c : Char) : Option Nat :=
  if 48 ≤ c.toNat ∧ c.toNat ≤ 57 then some (c.toNat - 48)
  else if 97 ≤ c.toNat ∧ c.toNat ≤ 102 then some (c.toNat - 87)
  else if 65 ≤ c.toNat ∧ c.toNat ≤ 70 then some (c.toNat - 55)
  else none

/-- The escape JSON.stringify applies to one character inside a string
literal. -/
def escapeChar (c : Char) : List Char :=
  if c = '"' then ['\\', '"']
  else if c = '\\' then ['\\', '\\']
  else if c = '\x08' then ['\\', 'b']
  else if c = '\t' then ['\\', 't']
  else if c = '\n' then ['\\', 'n']
  else if c = '\x0c' then ['\\', 'f']
  else if c = '\r' then ['\\', 'r']
  else if c.toNat < 32 then
    ['\\', 'u', '0', '0', hexDigit (c.toNat / 16), hexDigit (c.toNat % 16)]
  else [c]

def escapeList (cs : List Char) : List Char :=
  (cs.map escapeChar).flatten

/-- Tail of the JSON.stringify output after the first element: either the
closing bracket, or a comma followed by the next quoted element. -/
def serializeRest : List String → List Char
  | [] => [']']
  | t :: ts => ',' :: '"' :: (escapeList t.data ++ '"' :: serializeRest ts)

/-- JSON.stringify of an array of strings, as the workflow writes it into
the product_links and image_urls columns. -/
def serializeStringArray : List String → String
  | [] => ⟨['[', ']']⟩
  | s :: ss => ⟨'[' :: '"' :: (escapeList s.data ++ '"' :: serializeRest ss)⟩

/-- Parser state inside a string element of the array: done holds the
completed elements, cur the characters of the string being read.  After the
closing quote of an element the only accepted continuations are a comma
followed by the next quoted element, or the closing bracket ending the
input. -/
def parseElemsCore (done : List String) (cur : List Char) : List Char → Option (List String)
  | [] => none
  | c :: rest =>
    if c = '"' then
      match rest with
      | ',' :: d :: rest2 =>
        if d = '"' then parseElemsCore (done ++ [⟨cur⟩]) [] rest2 else none
      | ']' :: rest2 =>
        if rest2 = [] then some (done ++ [⟨cur⟩]) else none
      | _ => none
    else if c = '\\' then
      match rest with
      | [] => none
      | e :: rest2 =>
        if e = '"' then parseElemsCore done (cur ++ ['"']) rest2
        else if e = '\\' then parseElemsCore done (cur ++ ['\\']) rest2
        else if e = '/' then parseElemsCore done (cur ++ ['/']) rest2
        else if e = 'b' then parseElemsCore done (cur ++ ['\x08']) rest2
        else if e = 'f' then parseElemsCore done (cur ++ ['\x0c']) rest2
        else if e = 'n' then parseElemsCore done (cur ++ ['\n']) rest2
        else if e = 'r' then parseElemsCore done (cur ++ ['\r']) rest2
        else if e = 't' then parseElemsCore done (cur ++ ['\t']) rest2
        else if e = 'u' then
          match rest2 with
          | h1 :: h2 :: h3 :: h4 :: rest3 =>
            match hexVal h1, hexVal h2, hexVal h3, hexVal h4 with
            | some a, some b, some c2, some d2 =>
              let n := ((a * 16 + b) * 16 + c2) * 16 + d2
              if n < 55296 ∨ 57343 < n then
                parseElemsCore done (cur ++ [Char.ofNat n]) rest3
              else none
            | _, _, _, _ => none
          | _ => none
        else none
    else if c.toNat < 32 then none
    else parseElemsCore done (cur ++ [c]) rest

/-- JSON.parse restricted to the texts the workflow writes: a JSON array of
string literals with no interior whitespace.  Returns none exactly when
JSON.parse would throw on such a text (and on every text outside this
grammar, which the workflow never produces). -/
def parseStringArray (s : String) : Option (List String) :=
  match s.data with
  | [] => none
  | c1 :: rest1 =>
    if c1 = '[' then
      match rest1 with
      | [] => none
      | c2 :: rest2 =>
        if c2 = ']' then (if rest2 = [] then some [] else none)
        else if c2 = '"' then parseElemsCore [] [] rest2
        else none
    else none

theorem hexVal_hexDigit (n : Nat) (h : n < 16) : hexVal (hexDigit n) = some n := by
  interval_cases n <;> decide

theorem parseElemsCore_escapeChar (c : Char) (done : List String) (cur l : List Char) :
    parseElemsCore done cur (escapeChar c ++ l) = parseElemsCore done (cur ++ [c]) l := by
  by_cases h1 : c = '"'
  · subst h1
    rw [show escapeChar '"' = ['\\', '"'] from rfl, List.cons_append, List.cons_append,
      List.nil_append, parseElemsCore.eq_def]
    simp
  by_cases h2 : c = '\\'
  · subst h2
    rw [show escapeChar '\\' = ['\\', '\\'] from rfl, List.cons_append, List.cons_append,
      List.nil_append, parseElemsCore.eq_def]
    simp
  by_cases h3 : c = '\x08'
  · subst h3
    rw [show escapeChar '\x08' = ['\\', 'b'] from rfl, List.cons_append, List.cons_append,
      List.nil_append, parseElemsCore.eq_def]
    simp
  by_cases h4 : c = '\t'
  · subst h4
    rw [show escapeChar '\t' = ['\\', 't'] from rfl, List.cons_append, List.cons_append,
      List.nil_append, parseElemsCore.eq_def]
    simp
  by_cases h5 : c = '\n'
  · subst h5
    rw [show escapeChar '\n' = ['\\', 'n'] from rfl, List.cons_append, List.cons_append,
      List.nil_append, parseElemsCore.eq_def]
    simp
  by_cases h6 : c = '\x0c'
  · subst h6
    rw [show escapeChar '\x0c' = ['\\', 'f'] from rfl, List.cons_append, List.cons_append,
      List.nil_append, parseElemsCore.eq_def]
    simp
  by_cases h7 : c = '\r'
  · subst h7
    rw [show escapeChar '\r' = ['\\', 'r'] from rfl, List.cons_append, List.cons_append,
      List.nil_append, parseElemsCore.eq_def]
    simp
  by_cases h8 : c.toNat < 32
  · have hdiv : c.toNat / 16 < 16 := by omega
    have hmod : c.toNat % 16 < 16 := by omega
    simp only [escapeChar, if_neg h1, if_neg h2, if_neg h3, if_neg h4, if_neg h5,
      if_neg h6, if_neg h7, if_pos h8, List.cons_append, List.nil_append]
    rw [parseElemsCore.eq_def]
    simp only [Char.reduceEq, reduceIte, hexVal_hexDigit _ hdiv, hexVal_hexDigit _ hmod]
    rw [show hexVal '0' = some 0 from rfl]
    split
    next a b c2 d2 ha hb hc2 hd2 =>
      injection ha with ha
      injection hb with hb
      injection hc2 with hc2
      injection hd2 with hd2
      subst ha; subst hb; subst hc2; subst hd2
      rw [if_pos (show ((0 * 16 + 0) * 16 + c.toNat / 16) * 16 + c.toNat % 16 < 55296 ∨
        57343 < ((0 * 16 + 0) * 16 + c.toNat / 16) * 16 + c.toNat % 16 by omega)]
      have hn : ((0 * 16 + 0) * 16 + c.toNat / 16) * 16 + c.toNat % 16 = c.toNat := by omega
      rw [hn, Char.ofNat_toNat]
    next hne =>
      exact ((hne 0 0 (c.toNat / 16) (c.toNat % 16) rfl rfl rfl rfl) : False).elim
  · have h9 : ¬ c.toNat < 32 := h8
    simp only [escapeChar, if_neg h1, if_neg h2, if_neg h3, if_neg h4, if_neg h5,
      if_neg h6, if_neg h7, if_neg h9, List.cons_append, List.nil_append]
    rw [parseElemsCore.eq_def]
    simp [h1, h2, h9]

theorem parseElemsCore_escapeList (cs : List Char) (done : List String) (cur l : List Char) :
    parseElemsCore done cur (escapeList cs ++ l) = parseElemsCore done (cur ++ cs) l := by
  induction cs generalizing cur with
  | nil => simp [escapeList]
  | cons c cs ih =>
    have : escapeList (c :: cs) = escapeChar c ++ escapeList cs := by
      simp [escapeList]
    rw [this, List.append_assoc, parseElemsCore_escapeChar, ih, List.append_assoc]
    simp

theorem parseElemsCore_close (ss : List String) (done : List String) (cur : List Char) :
    parseElemsCore done cur ('"' :: serializeRest ss) = some (done ++ ⟨cur⟩ :: ss) := by
  induction ss generalizing done cur with
  | nil =>
    rw [serializeRest, parseElemsCore]
    simp
  | cons t ts ih =>
    rw [serializeRest, parseElemsCore]
    simp only [reduceIte]
    rw [parseElemsCore_escapeList t.data (done ++ [String.mk cur]) [] ('"' :: serializeRest ts)]
    simp only [List.nil_append]
    rw [ih]
    simp

/-- Round trip: the listing's JSON.parse inverts the workflow's
JSON.stringify on every list of strings. -/
theorem parseStringArray_serialize (l : List String) :
    parseStringArray (serializeStringArray l) = some l := by
  cases l with
  | nil => decide
  | cons s ss =>
    show parseStringArray ⟨'[' :: '"' :: (escapeList s.data ++ '"' :: serializeRest ss)⟩ = _
    rw [parseStringArray]
    simp only [reduceIte]
    rw [parseElemsCore_escapeList s.data [] [] ('"' :: serializeRest ss)]
    simp only [List.nil_append]
    rw [parseElemsCore_close]
    simp

theorem serializeStringArray_ne_empty (l : List String) : serializeStringArray l ≠ "" := by
  have h : ("" : String) = ⟨[]⟩ := rfl
  cases l <;> (rw [serializeStringArray, h]; intro hc; injection hc with hd; simp at hd)

/-! ### Parsing the links textarea

The handler computes
  (links || '').split('\n').map(s => s.trim()).filter(Boolean)
Splitting is on the newline character; trim removes the ECMAScript
whitespace set from both ends; filter(Boolean) drops exactly the empty
strings. -/

/-- The ECMAScript whitespace set recognised by String.prototype.trim:
tab through carriage return, space, no-break space, the Unicode space
separators, line separator, paragraph separator and the BOM. -/
def isJsWhitespace (c : Char) : Bool :=
  (9 ≤ c.toNat ∧ c.toNat ≤ 13) ∨ c.toNat = 32 ∨ c.toNat = 160 ∨ c.toNat = 5760 ∨
  (8192 ≤ c.toNat ∧ c.toNat ≤ 8202) ∨ c.toNat = 8232 ∨ c.toNat = 8233 ∨
  c.toNat = 8239 ∨ c.toNat = 8287 ∨ c.toNat = 12288 ∨ c.toNat = 65279

/-- JavaScript String.prototype.trim. -/
def jsTrim (s : String) : String :=
  ⟨((s.data.dropWhile isJsWhitespace).reverse.dropWhile isJsWhitespace).reverse⟩

/-- JavaScript split('\n'): cut the character sequence at every newline;
the empty string yields the one-element list of the empty string. -/
def splitLines : List Char → List (List Char)
  | [] => [[]]
  | c :: rest =>
    if c = '\n' then [] :: splitLines rest
    else
      match splitLines rest with
      | [] => [[c]]
      | l :: ls => (c :: l) :: ls

def jsSplitNl (s : String) : List String :=
  (splitLines s.data).map (fun cs => ⟨cs⟩)

/-- linksArray of the handler: (links || '').split('\n').map(trim).filter(Boolean);
the request field is undefined (none) when the form omitted it. -/
def parseLinks (links : Option String) : List String :=
  ((jsSplitNl (links.getD "")).map jsTrim).filter (fun s => s != "")

/-- Modelled from the claim wording of C4 (spec section 4.4 step 2): split
the raw links text on newline characters, trim each line, drop the lines
that are empty after trimming, preserving the order of the rest. -/
def claimParseLinks (raw : String) : List String :=
  ((jsSplitNl raw).map jsTrim).filter (fun s => !s.isEmpty)

/-! ### Data model: submissions table, requests, environment -/

/-- One row of the submissions table (src/server.js CREATE TABLE).  The two
serialized columns are nullable text; created_at is CURRENT_TIMESTAMP at
insert time, modelled as a Nat with second resolution, so two consecutive
inserts may carry the same value. -/
structure Row where
  id : Nat
  name : String
  contact : String
  email : String
  product_links : Option String
  image_urls : Option String
  created_at : Nat
  status : String
deriving DecidableEq

/-- The submissions table: rows in insertion (rowid) order plus the
AUTOINCREMENT counter. -/
structure Store where
  rows : List Row
  nextId : Nat
deriving DecidableEq

/-- An uploaded file buffer (multer memory storage); its contents are
opaque to the workflow, which only hands them to the uploader. -/
abbrev ImageFile := String

/-- The parsed multipart body of POST /api/submit: absent fields are none,
matching the undefined the JS destructuring produces. -/
structure SubmitRequest where
  name : Option String
  contact : Option String
  email : Option String
  links : Option String
  files : List ImageFile

/-- JavaScript falsiness of an optional string field: undefined and the
empty string are falsy, every other string is truthy. -/
def falsy : Option String → Bool
  | none => true
  | some s => s == ""

/-- The two emails the handler can send: the internal notification with the
submission data, and the customer acknowledgment. -/
inductive MailMsg where
  | internal (name contact email : String) (links urls : List String)
  | customer (recipient name : String)
deriving DecidableEq

/-- One observable external call of the handler.  The code has no deletion
or cleanup call against the media host; deleteCall is in the vocabulary so
that its absence from every trace is a statable fact. -/
inductive Ev where
  | uploadCall (file : ImageFile)
  | deleteCall (url : String)
  | insertRow (r : Row)
  | sendMailEv (m : MailMsg)
deriving DecidableEq

/-- The ambient collaborators: the Cloudinary uploader, the nodemailer
transporter (present only when SMTP_HOST is configured) and the current
timestamp the store assigns. -/
structure Env where
  up : ImageFile → Except String String
  send : MailMsg → Except String Unit
  transporterConfigured : Bool
  now : Nat

/-- The three response shapes of POST /api/submit: 200 with success true,
400 with the fixed validation message, 500 with Server error plus
details. -/
inductive Resp where
  | success
  | validationError
  | serverError (details : String)
deriving DecidableEq

def Resp.statusCode : Resp → Nat
  | .success => 200
  | .validationError => 400
  | .serverError _ => 500

/-- The upload loop: for each file in attachment order call the uploader;
the first failure aborts with that error.  Returns the trace of upload
calls alongside the result. -/
def uploadImages (up : ImageFile → Except String String) :
    List ImageFile → List Ev × Except String (List String)
  | [] => ([], Except.ok [])
  | f :: fs =>
    match up f with
    | Except.error e => ([Ev.uploadCall f], Except.error e)
    | Except.ok url =>
      let r := uploadImages up fs
      (Ev.uploadCall f :: r.1, r.2.map (fun urls => url :: urls))

/-- Store.insert: serialize the two lists with JSON.stringify and append a
row with the next id, the store clock and the default pending status. -/
def storeInsert (st : Store) (now : Nat) (name contact email : String)
    (links urls : List String) : Store × Row :=
  let r : Row :=
    { id := st.nextId, name := name, contact := contact, email := email,
      product_links := some (serializeStringArray links),
      image_urls := some (serializeStringArray urls),
      created_at := now, status := "pending" }
  ({ rows := st.rows ++ [r], nextId := st.nextId + 1 }, r)

/-- The mail block of the handler: when a transporter is configured, send
the internal notification, then — only when the submitter gave an email —
the customer acknowledgment; the first failing send aborts the block with
its error.  Returns the outcome together with the send trace. -/
def notifyStep (env : Env) (name contact email : String)
    (linksArray urls : List String) : Except String Unit × List Ev :=
  if env.transporterConfigured then
    match env.send (MailMsg.internal name contact email linksArray urls) with
    | Except.error e =>
      (Except.error e, [Ev.sendMailEv (MailMsg.internal name contact email linksArray urls)])
    | Except.ok _ =>
      if email = "" then
        (Except.ok (), [Ev.sendMailEv (MailMsg.internal name contact email linksArray urls)])
      else
        match env.send (MailMsg.customer email name) with
        | Except.error e =>
          (Except.error e, [Ev.sendMailEv (MailMsg.internal name contact email linksArray urls),
            Ev.sendMailEv (MailMsg.customer email name)])
        | Except.ok _ =>
          (Except.ok (), [Ev.sendMailEv (MailMsg.internal name contact email linksArray urls),
            Ev.sendMailEv (MailMsg.customer email name)])
  else (Except.ok (), [])

/-- The POST /api/submit handler: validate, parse links, upload images,
insert the row, then run the mail block; any thrown error is caught and
becomes a 500, a run with no throw answers 200 success. -/
def handleSubmit (env : Env) (req : SubmitRequest) (st : Store) :
    Resp × Store × List Ev :=
  if falsy req.name || falsy req.contact then
    (Resp.validationError, st, [])
  else
    let name := req.name.getD ""
    let contact := req.contact.getD ""
    let email := req.email.getD ""
    let linksArray := parseLinks req.links
    match uploadImages env.up req.files with
    | (evs, Except.error e) => (Resp.serverError e, st, evs)
    | (evs, Except.ok uploadedUrls) =>
      let ins := storeInsert st env.now name contact email linksArray uploadedUrls
      let notif := notifyStep env name contact email linksArray uploadedUrls
      match notif.1 with
      | Except.error e =>
        (Resp.serverError e, ins.1, evs ++ [Ev.insertRow ins.2] ++ notif.2)
      | Except.ok _ =>
        (Resp.success, ins.1, evs ++ [Ev.insertRow ins.2] ++ notif.2)

/-! ### The admin listing -/

/-- A listed submission: the row with the two serialized columns replaced
by the parsed lists, as built by the admin route's row mapping. -/
structure ParsedRow where
  id : Nat
  name : String
  contact : String
  email : String
  product_links : List String
  image_urls : List String
  created_at : Nat
  status : String
deriving DecidableEq

/-- JSON.parse(column || '[]'): an absent (null) or empty column falls back
to the empty array text; otherwise the stored text is parsed, and a
malformed text makes JSON.parse throw, which the route does not catch. -/
def parseField : Option String → Except String (List String)
  | none => Except.ok []
  | some s =>
    if s = "" then Except.ok []
    else
      match parseStringArray s with
      | some l => Except.ok l
      | none => Except.error "SyntaxError"

def parseRow (r : Row) : Except String ParsedRow :=
  match parseField r.product_links with
  | Except.error e => Except.error e
  | Except.ok links =>
    match parseField r.image_urls with
    | Except.error e => Except.error e
    | Except.ok urls =>
      Except.ok
        { id := r.id, name := r.name, contact := r.contact, email := r.email,
          product_links := links, image_urls := urls,
          created_at := r.created_at, status := r.status }

def parseRows : List Row → Except String (List ParsedRow)
  | [] => Except.ok []
  | r :: rs =>
    match parseRow r with
    | Except.error e => Except.error e
    | Except.ok p =>
      match parseRows rs with
      | Except.error e => Except.error e
      | Except.ok ps => Except.ok (p :: ps)

/-- The ordering of SELECT * FROM submissions ORDER BY created_at DESC.
SQLite scans the table in rowid (insertion) order and sorts by the key
only, leaving the relative order of equal keys unspecified; the model uses
the stable insertion sort on the scan order, which keeps equal-timestamp
rows in insertion order. -/
def rowOrder (a b : Row) : Prop := b.created_at ≤ a.created_at

instance : DecidableRel rowOrder := fun a b => Nat.decLe b.created_at a.created_at

instance : IsTotal Row rowOrder := ⟨fun a b => Nat.le_total b.created_at a.created_at⟩

instance : IsTrans Row rowOrder := ⟨fun _ _ _ h1 h2 => Nat.le_trans h2 h1⟩

def submissionsSorted (st : Store) : List Row :=
  List.insertionSort rowOrder st.rows

/-- GET /admin/submissions: all rows newest first, each with the two
serialized columns parsed; a parse failure propagates as an error
response instead of a row list. -/
def listAll (st : Store) : Except String (List ParsedRow) :=
  parseRows (submissionsSorted st)

/-! ### Support lemmas -/

theorem parseField_serializeStringArray (l : List String) :
    parseField (some (serializeStringArray l)) = Except.ok l := by
  rw [parseField]
  rw [if_neg (serializeStringArray_ne_empty l), parseStringArray_serialize]

/-- A row whose two serialized columns were written by the workflow. -/
def RowWF (r : Row) : Prop :=
  (∃ ls, r.product_links = some (serializeStringArray ls)) ∧
  (∃ us, r.image_urls = some (serializeStringArray us))

theorem parseRow_of_wf {r : Row} (h : RowWF r) : ∃ p, parseRow r = Except.ok p := by
  obtain ⟨⟨ls, hl⟩, ⟨us, hu⟩⟩ := h
  refine ⟨⟨r.id, r.name, r.contact, r.email, ls, us, r.created_at, r.status⟩, ?_⟩
  rw [parseRow, hl, parseField_serializeStringArray, hu, parseField_serializeStringArray]

theorem parseRow_created_at {r : Row} {p : ParsedRow}
    (h : parseRow r = Except.ok p) : p.created_at = r.created_at := by
  rw [parseRow] at h
  cases hl : parseField r.product_links with
  | error e => rw [hl] at h; exact absurd h (by simp)
  | ok links =>
    rw [hl] at h
    cases hu : parseField r.image_urls with
    | error e => rw [hu] at h; exact absurd h (by simp)
    | ok urls =>
      rw [hu] at h
      injection h with h
      rw [← h]

theorem parseRows_ok_of_wf (rows : List Row) (h : ∀ r ∈ rows, RowWF r) :
    ∃ ps, parseRows rows = Except.ok ps := by
  induction rows with
  | nil => exact ⟨[], rfl⟩
  | cons r rs ih =>
    obtain ⟨p, hp⟩ := parseRow_of_wf (h r (List.mem_cons_self r rs))
    obtain ⟨ps, hps⟩ := ih (fun x hx => h x (List.mem_cons_of_mem r hx))
    refine ⟨p :: ps, ?_⟩
    rw [parseRows, hp, hps]

theorem parseRows_forall2 :
    ∀ {rows : List Row} {ps : List ParsedRow}, parseRows rows = Except.ok ps →
      List.Forall₂ (fun r p => parseRow r = Except.ok p) rows ps := by
  intro rows
  induction rows with
  | nil =>
    intro ps h
    rw [parseRows] at h
    injection h with h
    rw [← h]
    exact List.Forall₂.nil
  | cons r rs ih =>
    intro ps h
    rw [parseRows] at h
    cases hr : parseRow r with
    | error e => rw [hr] at h; exact absurd h (by simp)
    | ok p =>
      rw [hr] at h
      cases hrs : parseRows rs with
      | error e => rw [hrs] at h; exact absurd h (by simp)
      | ok ps2 =>
        rw [hrs] at h
        injection h with h
        rw [← h]
        exact List.Forall₂.cons hr (ih hrs)

theorem forall2_mem_left {R : Row → ParsedRow → Prop} :
    ∀ {l1 : List Row} {l2 : List ParsedRow}, List.Forall₂ R l1 l2 →
      ∀ a ∈ l1, ∃ b ∈ l2, R a b := by
  intro l1 l2 h
  induction h with
  | nil => intro a ha; exact absurd ha (by simp)
  | cons hab htail ih =>
    intro a ha
    rcases List.mem_cons.mp ha with h1 | h2
    · subst h1; exact ⟨_, List.mem_cons_self _ _, hab⟩
    · obtain ⟨b, hb, hR⟩ := ih a h2
      exact ⟨b, List.mem_cons_of_mem _ hb, hR⟩

theorem forall2_mem_right {R : Row → ParsedRow → Prop} :
    ∀ {l1 : List Row} {l2 : List ParsedRow}, List.Forall₂ R l1 l2 →
      ∀ b ∈ l2, ∃ a ∈ l1, R a b := by
  intro l1 l2 h
  induction h with
  | nil => intro b hb; exact absurd hb (by simp)
  | cons hab htail ih =>
    intro b hb
    rcases List.mem_cons.mp hb with h1 | h2
    · subst h1; exact ⟨_, List.mem_cons_self _ _, hab⟩
    · obtain ⟨a, ha, hR⟩ := ih b h2
      exact ⟨a, List.mem_cons_of_mem _ ha, hR⟩

theorem pairwise_desc_of_forall2 :
    ∀ {rows : List Row} {ps : List ParsedRow},
      List.Forall₂ (fun r p => parseRow r = Except.ok p) rows ps →
      rows.Pairwise rowOrder →
      ps.Pairwise (fun p q => q.created_at ≤ p.created_at) := by
  intro rows ps h
  induction h with
  | nil => intro _; exact List.Pairwise.nil
  | cons hab htail ih =>
    intro hpw
    rcases List.pairwise_cons.mp hpw with ⟨hhead, htl⟩
    refine List.pairwise_cons.mpr ⟨?_, ih htl⟩
    intro q hq
    obtain ⟨r2, hr2, hR2⟩ := forall2_mem_right htail q hq
    have h1 := parseRow_created_at hab
    have h2 := parseRow_created_at hR2
    have h3 := hhead r2 hr2
    rw [rowOrder] at h3
    omega

theorem uploadImages_ok (up : ImageFile → Except String String) :
    ∀ (fs : List ImageFile) (urls : List String),
      fs.map up = urls.map Except.ok →
      uploadImages up fs = (fs.map Ev.uploadCall, Except.ok urls) := by
  intro fs
  induction fs with
  | nil =>
    intro urls h
    cases urls with
    | nil => rfl
    | cons u us => exact absurd h (by simp)
  | cons f fs ih =>
    intro urls h
    cases urls with
    | nil => exact absurd h (by simp)
    | cons u us =>
      rw [List.map_cons, List.map_cons] at h
      injection h with h1 h2
      rw [uploadImages, h1, ih us h2]
      rfl

theorem uploadImages_fail (up : ImageFile → Except String String) :
    ∀ (fs : List ImageFile) (i : Nat) (hi : i < fs.length) (e : String),
      up (fs.get ⟨i, hi⟩) = Except.error e →
      (∀ j (hj : j < i), ∃ u, up (fs.get ⟨j, Nat.lt_trans hj hi⟩) = Except.ok u) →
      uploadImages up fs = ((fs.take (i + 1)).map Ev.uploadCall, Except.error e) := by
  intro fs
  induction fs with
  | nil => intro i hi; exact absurd hi (by simp)
  | cons f fs ih =>
    intro i hi e hfail hok
    cases i with
    | zero =>
      rw [uploadImages]
      rw [show (f :: fs).get ⟨0, hi⟩ = f from rfl] at hfail
      rw [hfail]
      rfl
    | succ k =>
      obtain ⟨u, hu⟩ := hok 0 (Nat.zero_lt_succ k)
      rw [show (f :: fs).get ⟨0, _⟩ = f from rfl] at hu
      rw [uploadImages, hu]
      have hk : k < fs.length := Nat.lt_of_succ_lt_succ hi
      have hfail2 : up (fs.get ⟨k, hk⟩) = Except.error e := by
        rw [← hfail]; rfl
      have hok2 : ∀ j (hj : j < k), ∃ v, up (fs.get ⟨j, Nat.lt_trans hj hk⟩) = Except.ok v := by
        intro j hj
        obtain ⟨v, hv⟩ := hok (j + 1) (Nat.succ_lt_succ hj)
        exact ⟨v, by rw [← hv]; rfl⟩
      rw [ih k hk e hfail2 hok2]
      rfl

deriving instance DecidableEq for Except

/-! ### The claims -/

/-- Claim C4: the parsed links list is obtained by splitting the raw links
text on newline characters, trimming each line and dropping lines empty
after trimming, order preserved; the handler computation coincides with
that description on every input (an absent field behaves as the empty
text), and the spec's concrete example evaluates as claimed. -/
theorem c4_parse_links_spec :
    (∀ raw, parseLinks (some raw) = claimParseLinks raw) ∧
    parseLinks none = claimParseLinks "" ∧
    parseLinks (some "http://a.com\n\nhttp://b.com\n  \n")
      = ["http://a.com", "http://b.com"] := by
  have hfilter : ∀ o, ((jsSplitNl (Option.getD o "")).map jsTrim).filter (fun s => s != "")
      = ((jsSplitNl (Option.getD o "")).map jsTrim).filter (fun s => !s.isEmpty) := by
    intro o
    apply List.filter_congr
    intro s _
    by_cases hs : s = ""
    · subst hs; decide
    · have h1 : (s != "") = true := bne_iff_ne.mpr hs
      have h2 : s.isEmpty = false := by
        rcases hb : s.isEmpty with _ | _
        · rfl
        · exact absurd ((String.isEmpty_iff s).mp hb) hs
      rw [h1, h2]
      rfl
  refine ⟨?_, ?_, ?_⟩
  · intro raw
    rw [parseLinks, claimParseLinks]
    exact hfilter (some raw)
  · rw [parseLinks, claimParseLinks]
    exact hfilter none
  · decide

/-- Claim C1, counterexample: a whitespace-only name is truthy in
JavaScript, so the request with name a single space passes the
falsiness check, is not answered with the 400 validation error, and a row
is inserted — the claim's "whitespace-only (empty after trimming)" case
does not hold on the code. -/
theorem c1_counterexample :
    (handleSubmit ⟨fun _ => Except.error "up", fun _ => Except.ok (), false, 0⟩
      ⟨some " ", some "c", none, none, []⟩ ⟨[], 1⟩).1 ≠ Resp.validationError ∧
    Ev.insertRow ⟨1, " ", "c", "", some (serializeStringArray []),
        some (serializeStringArray []), 0, "pending"⟩ ∈
      (handleSubmit ⟨fun _ => Except.error "up", fun _ => Except.ok (), false, 0⟩
        ⟨some " ", some "c", none, none, []⟩ ⟨[], 1⟩).2.2 := by decide

/-- Claim C1 as amended: for every request in which name or contact is
absent or the empty string (JavaScript-falsy — whitespace-only strings are
truthy and pass), the handler returns the 400 validation error response,
leaves the store unchanged and performs no external call at all. -/
theorem c1_reject_missing_or_empty (env : Env) (req : SubmitRequest) (st : Store)
    (h : falsy req.name = true ∨ falsy req.contact = true) :
    handleSubmit env req st = (Resp.validationError, st, []) ∧
    Resp.statusCode Resp.validationError = 400 := by
  constructor
  · rw [handleSubmit]
    rcases h with h | h <;> simp [h]
  · rfl

/-- Witness for c1_reject_missing_or_empty at a concrete request with the
name field absent. -/
theorem c1_reject_witness :
    handleSubmit ⟨fun _ => Except.error "up", fun _ => Except.ok (), false, 0⟩
      ⟨none, some "c", none, none, []⟩ ⟨[], 5⟩
    = (Resp.validationError, ⟨[], 5⟩, []) ∧
    Resp.statusCode Resp.validationError = 400 :=
  c1_reject_missing_or_empty _ _ _ (Or.inl rfl)

/-- Claim C7, counterexample: a stored row whose product_links text is
malformed makes the listing fail with the JSON parse error instead of
yielding an empty sequence for that field. -/
theorem c7_counterexample :
    listAll ⟨[⟨1, "n", "c", "", some "oops", some "x", 0, "pending"⟩], 2⟩
      = Except.error "SyntaxError" ∧
    listAll ⟨[⟨1, "n", "c", "", some "oops", some "x", 0, "pending"⟩], 2⟩
      ≠ Except.ok [⟨1, "n", "c", "", [], [], 0, "pending"⟩] := by decide

/-- Claim C7 as amended: a row whose serialized field is absent (NULL, or
the empty string, both falsy) yields the empty sequence for that field,
but a malformed serialized text is not recovered: the listing propagates
the parse failure to the caller. -/
theorem c7_absent_or_malformed (r r2 : Row) (n n2 : Nat) (s : String)
    (hp : r.product_links = some s) (hs : s ≠ "") (hm : parseStringArray s = none)
    (h2p : r2.product_links = none) (h2u : r2.image_urls = none) :
    listAll ⟨[r], n⟩ = Except.error "SyntaxError" ∧
    listAll ⟨[r2], n2⟩
      = Except.ok [⟨r2.id, r2.name, r2.contact, r2.email, [], [], r2.created_at, r2.status⟩] := by
  constructor
  · rw [listAll, submissionsSorted]
    show parseRows [r] = _
    rw [parseRows, parseRow, hp, parseField, if_neg hs, hm]
  · rw [listAll, submissionsSorted]
    show parseRows [r2] = _
    rw [parseRows, parseRow, h2p, h2u]
    rfl

/-- Witness for c7_absent_or_malformed: a malformed row with text oops and
an all-NULL-columns row. -/
theorem c7_absent_or_malformed_witness :
    listAll ⟨[⟨1, "n", "c", "", some "oops", some "x", 7, "pending"⟩], 2⟩
      = Except.error "SyntaxError" ∧
    listAll ⟨[⟨4, "m", "d", "e", none, none, 9, "pending"⟩], 5⟩
      = Except.ok [⟨4, "m", "d", "e", [], [], 9, "pending"⟩] :=
  c7_absent_or_malformed _ _ 2 5 "oops" rfl (by decide) (by decide) rfl rfl

/-- Claim C2: if the upload of image i fails after the first i - 1 uploads
succeeded, the handler answers with the 500 server error carrying that
failure, the store is unchanged, and the trace holds exactly the i upload
calls — in particular no deletion call for the previously uploaded assets
and no insert. -/
theorem c2_upload_failure_aborts (env : Env) (req : SubmitRequest) (st : Store)
    (hn : falsy req.name = false) (hc : falsy req.contact = false)
    (i : Nat) (hi : i < req.files.length) (e : String)
    (hfail : env.up (req.files.get ⟨i, hi⟩) = Except.error e)
    (hok : ∀ j (hj : j < i), ∃ u, env.up (req.files.get ⟨j, Nat.lt_trans hj hi⟩) = Except.ok u) :
    handleSubmit env req st
      = (Resp.serverError e, st, (req.files.take (i + 1)).map Ev.uploadCall) ∧
    Resp.statusCode (Resp.serverError e) = 500 ∧
    (∀ url, Ev.deleteCall url ∉ (req.files.take (i + 1)).map Ev.uploadCall) ∧
    (∀ r, Ev.insertRow r ∉ (req.files.take (i + 1)).map Ev.uploadCall) := by
  refine ⟨?_, rfl, ?_, ?_⟩
  · rw [handleSubmit]
    simp only [hn, hc, Bool.or_self, Bool.false_or, Bool.or_false, if_neg]
    rw [uploadImages_fail env.up req.files i hi e hfail hok]
    simp
  · intro url h
    obtain ⟨f, hf, hfe⟩ := List.mem_map.mp h
    exact absurd hfe (by simp)
  · intro r h
    obtain ⟨f, hf, hfe⟩ := List.mem_map.mp h
    exact absurd hfe (by simp)

/-- Witness for c2_upload_failure_aborts: three attachments, the second
upload fails. -/
theorem c2_upload_failure_witness :
    handleSubmit
      ⟨fun f => if f = "b" then Except.error "boom" else Except.ok ("u-" ++ f),
        fun _ => Except.ok (), true, 3⟩
      ⟨some "n", some "c", none, none, ["a", "b", "x"]⟩ ⟨[], 0⟩
      = (Resp.serverError "boom", ⟨[], 0⟩,
          (["a", "b", "x"].take 2).map Ev.uploadCall) ∧
    Resp.statusCode (Resp.serverError "boom") = 500 ∧
    (∀ url, Ev.deleteCall url ∉ (["a", "b", "x"].take 2).map Ev.uploadCall) ∧
    (∀ r, Ev.insertRow r ∉ (["a", "b", "x"].take 2).map Ev.uploadCall) :=
  c2_upload_failure_aborts _ _ _ (by decide) (by decide) 1 (by decide) "boom" (by decide)
    (fun j hj => by interval_cases j; exact ⟨"u-a", rfl⟩)

/-- Claim C3: a pair of string sequences inserted through the store comes
back from the listing unchanged — the listing of the store after the
insert succeeds and contains the parsed row with exactly the inserted
links and urls (same length, order and values), given every pre-existing
row was workflow-written. -/
theorem c3_store_roundtrip (st : Store) (now : Nat) (name contact email : String)
    (links urls : List String) (hwf : ∀ r ∈ st.rows, RowWF r) :
    ∃ ps, listAll (storeInsert st now name contact email links urls).1 = Except.ok ps ∧
      (⟨st.nextId, name, contact, email, links, urls, now, "pending"⟩ : ParsedRow) ∈ ps := by
  have hwf2 : ∀ r ∈ submissionsSorted (storeInsert st now name contact email links urls).1,
      RowWF r := by
    intro r hr
    have hr2 : r ∈ st.rows ++
        [(⟨st.nextId, name, contact, email, some (serializeStringArray links),
          some (serializeStringArray urls), now, "pending"⟩ : Row)] :=
      (List.perm_insertionSort rowOrder _).mem_iff.mp hr
    rcases List.mem_append.mp hr2 with h1 | h2
    · exact hwf r h1
    · rcases List.mem_singleton.mp h2 with h3
      subst h3
      exact ⟨⟨links, rfl⟩, ⟨urls, rfl⟩⟩
  obtain ⟨ps, hps⟩ := parseRows_ok_of_wf _ hwf2
  refine ⟨ps, hps, ?_⟩
  have hf2 := parseRows_forall2 hps
  have hmem : (⟨st.nextId, name, contact, email, some (serializeStringArray links),
      some (serializeStringArray urls), now, "pending"⟩ : Row)
      ∈ submissionsSorted (storeInsert st now name contact email links urls).1 := by
    apply (List.perm_insertionSort rowOrder _).mem_iff.mpr
    simp [storeInsert]
  obtain ⟨p, hp, hre⟩ := forall2_mem_left hf2 _ hmem
  have hparse : parseRow (⟨st.nextId, name, contact, email,
      some (serializeStringArray links), some (serializeStringArray urls), now, "pending"⟩ : Row)
      = Except.ok ⟨st.nextId, name, contact, email, links, urls, now, "pending"⟩ := by
    rw [parseRow]
    dsimp only
    rw [parseField_serializeStringArray, parseField_serializeStringArray]
  rw [hparse] at hre
  injection hre with hre
  rw [hre]
  exact hp

/-- Witness for c3_store_roundtrip: inserting two links and one url into
the empty store. -/
theorem c3_store_roundtrip_witness :
    ∃ ps, listAll (storeInsert ⟨[], 0⟩ 11 "n" "c" "e" ["http://a", "http://b"] ["u1"]).1
        = Except.ok ps ∧
      (⟨0, "n", "c", "e", ["http://a", "http://b"], ["u1"], 11, "pending"⟩ : ParsedRow) ∈ ps :=
  c3_store_roundtrip ⟨[], 0⟩ 11 "n" "c" "e" ["http://a", "http://b"] ["u1"]
    (fun r hr => absurd hr (by simp))

/-- No transporter configured: the mail block is a no-op. -/
theorem notifyStep_not_configured (env : Env) (name contact email : String)
    (la urls : List String) (ht : env.transporterConfigured = false) :
    notifyStep env name contact email la urls = (Except.ok (), []) := by
  rw [notifyStep, ht]
  rfl

/-- The internal notification send fails: the block aborts with that error
after the one send. -/
theorem notifyStep_internal_error (env : Env) (name contact email : String)
    (la urls : List String) (ht : env.transporterConfigured = true) (e : String)
    (hs1 : env.send (MailMsg.internal name contact email la urls) = Except.error e) :
    notifyStep env name contact email la urls
      = (Except.error e, [Ev.sendMailEv (MailMsg.internal name contact email la urls)]) := by
  rw [notifyStep, ht, hs1]
  rfl

/-- Internal send succeeds and no customer email was given: the block
succeeds having sent only the internal mail. -/
theorem notifyStep_internal_ok_no_email (env : Env) (name contact email : String)
    (la urls : List String) (ht : env.transporterConfigured = true)
    (hs1 : env.send (MailMsg.internal name contact email la urls) = Except.ok ())
    (he : email = "") :
    notifyStep env name contact email la urls
      = (Except.ok (), [Ev.sendMailEv (MailMsg.internal name contact "" la urls)]) := by
  subst he
  rw [notifyStep, ht, hs1]
  rfl

/-- Internal send succeeds, a customer email was given, and the customer
send fails: the block aborts with that error after both sends. -/
theorem notifyStep_customer_error (env : Env) (name contact email : String)
    (la urls : List String) (ht : env.transporterConfigured = true)
    (hs1 : env.send (MailMsg.internal name contact email la urls) = Except.ok ())
    (he : email ≠ "") (e : String)
    (hs2 : env.send (MailMsg.customer email name) = Except.error e) :
    notifyStep env name contact email la urls
      = (Except.error e, [Ev.sendMailEv (MailMsg.internal name contact email la urls),
          Ev.sendMailEv (MailMsg.customer email name)]) := by
  rw [notifyStep, ht, hs1, if_neg he, hs2]
  rfl

/-- After a validation pass and a fully successful upload pass, the handler
inserts the row and its response and trace are determined by the outcome
of the mail block. -/
theorem handleSubmit_of_upload_ok (env : Env) (req : SubmitRequest) (st : Store)
    (hn : falsy req.name = false) (hc : falsy req.contact = false)
    (urls : List String) (evs : List Ev)
    (hupload : uploadImages env.up req.files = (evs, Except.ok urls))
    (res : Except String Unit) (mev : List Ev)
    (hnotif : notifyStep env (req.name.getD "") (req.contact.getD "")
        (req.email.getD "") (parseLinks req.links) urls = (res, mev)) :
    handleSubmit env req st
      = ((match res with
          | Except.error e => Resp.serverError e
          | Except.ok _ => Resp.success),
         (storeInsert st env.now (req.name.getD "") (req.contact.getD "")
           (req.email.getD "") (parseLinks req.links) urls).1,
         evs ++ [Ev.insertRow (storeInsert st env.now (req.name.getD "")
           (req.contact.getD "") (req.email.getD "") (parseLinks req.links) urls).2] ++ mev) := by
  rw [handleSubmit]
  simp only [hn, hc, Bool.or_self, reduceIte]
  rw [hupload]
  split
  next heq => exact absurd heq (by simp)
  next =>
    split
    next evs2 e heq =>
      injection heq with h1 h2
      exact absurd h2 (by simp)
    next evs2 us heq =>
      injection heq with h1 h2
      injection h2 with h2
      subst h2
      subst h1
      simp only [hnotif]
      cases res <;> rfl

/-- After a fully successful upload pass the handler's resulting store is
the store with the new row appended, whatever the mail step then does. -/
theorem handleSubmit_store_ok (env : Env) (req : SubmitRequest) (st : Store)
    (hn : falsy req.name = false) (hc : falsy req.contact = false)
    (urls : List String) (evs : List Ev)
    (hupload : uploadImages env.up req.files = (evs, Except.ok urls)) :
    (handleSubmit env req st).2.1
      = (storeInsert st env.now (req.name.getD "") (req.contact.getD "")
          (req.email.getD "") (parseLinks req.links) urls).1 := by
  cases hno : notifyStep env (req.name.getD "") (req.contact.getD "")
      (req.email.getD "") (parseLinks req.links) urls with
  | mk res mev =>
    rw [handleSubmit_of_upload_ok env req st hn hc urls evs hupload res mev hno]

/-- Claim C5: when every upload succeeds, the persisted row's image_urls
column is exactly the serialization of the returned URLs — one per
uploaded image, in upload call order — and deserializing it yields that
same ordered list. -/
theorem c5_image_urls_order (env : Env) (req : SubmitRequest) (st : Store)
    (hn : falsy req.name = false) (hc : falsy req.contact = false)
    (urls : List String) (hup : req.files.map env.up = urls.map Except.ok) :
    (handleSubmit env req st).2.1
      = { rows := st.rows ++
            [⟨st.nextId, req.name.getD "", req.contact.getD "", req.email.getD "",
              some (serializeStringArray (parseLinks req.links)),
              some (serializeStringArray urls), env.now, "pending"⟩],
          nextId := st.nextId + 1 } ∧
    parseField (some (serializeStringArray urls)) = Except.ok urls := by
  refine ⟨?_, parseField_serializeStringArray urls⟩
  rw [handleSubmit_store_ok env req st hn hc urls (req.files.map Ev.uploadCall)
    (uploadImages_ok env.up req.files urls hup)]
  rfl

/-- Witness for c5_image_urls_order: three uploads succeeding in order. -/
theorem c5_image_urls_order_witness :
    (handleSubmit ⟨fun f => Except.ok ("u-" ++ f), fun _ => Except.ok (), false, 4⟩
      ⟨some "n", some "c", none, none, ["a", "b", "z"]⟩ ⟨[], 0⟩).2.1
      = { rows := [⟨0, "n", "c", "",
            some (serializeStringArray (parseLinks none)),
            some (serializeStringArray ["u-a", "u-b", "u-z"]), 4, "pending"⟩],
          nextId := 1 } ∧
    parseField (some (serializeStringArray ["u-a", "u-b", "u-z"])) = Except.ok ["u-a", "u-b", "u-z"] :=
  c5_image_urls_order _ _ _ (by decide) (by decide) ["u-a", "u-b", "u-z"] (by decide)

/-- Claim C6, counterexample: CURRENT_TIMESTAMP has one-second resolution,
so inserting A and then B within the same second gives both rows the same
created_at; sorting by created_at descending then leaves them in scan
(insertion) order and the listing returns A before B, not the claimed
B before A. -/
theorem c6_counterexample :
    listAll (storeInsert (storeInsert ⟨[], 0⟩ 5 "A" "ca" "" [] []).1 5 "B" "cb" "" [] []).1
      = Except.ok [⟨0, "A", "ca", "", [], [], 5, "pending"⟩,
          ⟨1, "B", "cb", "", [], [], 5, "pending"⟩] ∧
    ([⟨0, "A", "ca", "", [], [], 5, "pending"⟩, ⟨1, "B", "cb", "", [], [], 5, "pending"⟩]
        : List ParsedRow)
      ≠ [⟨1, "B", "cb", "", [], [], 5, "pending"⟩, ⟨0, "A", "ca", "", [], [], 5, "pending"⟩] := by
  decide

/-- Claim C6 as amended: the listing returns the rows sorted by created_at
descending and contains a parsed image of every stored row; inserting A
and then B returns B first provided B's created_at is strictly later than
A's (with equal timestamps, as happens for two inserts within the same
second, the relative order is the insertion order instead). -/
theorem c6_listing_order (n tA tB : Nat) (nA cA eA : String) (lA uA : List String)
    (nB cB eB : String) (lB uB : List String) (hlt : tA < tB) :
    listAll (storeInsert (storeInsert ⟨[], n⟩ tA nA cA eA lA uA).1 tB nB cB eB lB uB).1
      = Except.ok [⟨n + 1, nB, cB, eB, lB, uB, tB, "pending"⟩,
          ⟨n, nA, cA, eA, lA, uA, tA, "pending"⟩] ∧
    (∀ st l, listAll st = Except.ok l →
      l.Pairwise (fun p q => q.created_at ≤ p.created_at)) ∧
    (∀ st l, listAll st = Except.ok l → ∀ r ∈ st.rows, ∃ p ∈ l, parseRow r = Except.ok p) := by
  refine ⟨?_, ?_, ?_⟩
  · have hord : ¬ rowOrder
        (⟨n, nA, cA, eA, some (serializeStringArray lA),
          some (serializeStringArray uA), tA, "pending"⟩ : Row)
        (⟨n + 1, nB, cB, eB, some (serializeStringArray lB),
          some (serializeStringArray uB), tB, "pending"⟩ : Row) := by
      rw [rowOrder]
      exact Nat.not_le.mpr hlt
    rw [listAll, submissionsSorted]
    show parseRows (List.insertionSort rowOrder
      [⟨n, nA, cA, eA, some (serializeStringArray lA),
        some (serializeStringArray uA), tA, "pending"⟩,
       ⟨n + 1, nB, cB, eB, some (serializeStringArray lB),
        some (serializeStringArray uB), tB, "pending"⟩]) = _
    rw [List.insertionSort, List.insertionSort, List.insertionSort]
    rw [List.orderedInsert, List.orderedInsert, if_neg hord, List.orderedInsert]
    rw [parseRows, parseRow]
    dsimp only
    rw [parseField_serializeStringArray, parseField_serializeStringArray]
    rw [parseRows, parseRow]
    dsimp only
    rw [parseField_serializeStringArray, parseField_serializeStringArray]
    rfl
  · intro st l h
    rw [listAll] at h
    exact pairwise_desc_of_forall2 (parseRows_forall2 h)
      (List.sorted_insertionSort rowOrder st.rows)
  · intro st l h r hr
    rw [listAll] at h
    exact forall2_mem_left (parseRows_forall2 h) r
      ((List.perm_insertionSort rowOrder st.rows).mem_iff.mpr hr)

/-- Witness for c6_listing_order: two inserts one second apart. -/
theorem c6_listing_order_witness :
    listAll (storeInsert (storeInsert ⟨[], 0⟩ 5 "A" "ca" "" [] []).1 6 "B" "cb" "" [] []).1
      = Except.ok [⟨1, "B", "cb", "", [], [], 6, "pending"⟩,
          ⟨0, "A", "ca", "", [], [], 5, "pending"⟩] ∧
    (∀ st l, listAll st = Except.ok l →
      l.Pairwise (fun p q => q.created_at ≤ p.created_at)) ∧
    (∀ st l, listAll st = Except.ok l → ∀ r ∈ st.rows, ∃ p ∈ l, parseRow r = Except.ok p) :=
  c6_listing_order 0 5 6 "A" "ca" "" [] [] "B" "cb" "" [] [] (by decide)

/-- Claim C8: when validation and every upload succeed, the relay is
configured, and a notification send fails — the internal mail, or the
customer mail after a successful internal one — the client receives the
500 server error carrying that failure, while the inserted row stays in
the store: persistence is not rolled back on notification failure. -/
theorem c8_notify_failure_after_persist (env : Env) (req : SubmitRequest) (st : Store)
    (hn : falsy req.name = false) (hc : falsy req.contact = false)
    (urls : List String) (evs : List Ev)
    (hupload : uploadImages env.up req.files = (evs, Except.ok urls))
    (ht : env.transporterConfigured = true) (e : String)
    (hdisj : env.send (MailMsg.internal (req.name.getD "") (req.contact.getD "")
        (req.email.getD "") (parseLinks req.links) urls) = Except.error e
      ∨ (env.send (MailMsg.internal (req.name.getD "") (req.contact.getD "")
          (req.email.getD "") (parseLinks req.links) urls) = Except.ok ()
        ∧ req.email.getD "" ≠ ""
        ∧ env.send (MailMsg.customer (req.email.getD "") (req.name.getD ""))
            = Except.error e)) :
    (handleSubmit env req st).1 = Resp.serverError e ∧
    Resp.statusCode (Resp.serverError e) = 500 ∧
    (handleSubmit env req st).2.1
      = { rows := st.rows ++
            [⟨st.nextId, req.name.getD "", req.contact.getD "", req.email.getD "",
              some (serializeStringArray (parseLinks req.links)),
              some (serializeStringArray urls), env.now, "pending"⟩],
          nextId := st.nextId + 1 } := by
  have hstore : (handleSubmit env req st).2.1
      = { rows := st.rows ++
            [⟨st.nextId, req.name.getD "", req.contact.getD "", req.email.getD "",
              some (serializeStringArray (parseLinks req.links)),
              some (serializeStringArray urls), env.now, "pending"⟩],
          nextId := st.nextId + 1 } := by
    rw [handleSubmit_store_ok env req st hn hc urls evs hupload]
    rfl
  rcases hdisj with hs1 | ⟨hs1, hemail, hs2⟩
  · have hno := notifyStep_internal_error env (req.name.getD "") (req.contact.getD "")
      (req.email.getD "") (parseLinks req.links) urls ht e hs1
    refine ⟨?_, rfl, hstore⟩
    rw [handleSubmit_of_upload_ok env req st hn hc urls evs hupload _ _ hno]
  · have hno := notifyStep_customer_error env (req.name.getD "") (req.contact.getD "")
      (req.email.getD "") (parseLinks req.links) urls ht hs1 hemail e hs2
    refine ⟨?_, rfl, hstore⟩
    rw [handleSubmit_of_upload_ok env req st hn hc urls evs hupload _ _ hno]

/-- Witness for c8_notify_failure_after_persist: no attachments, internal
mail send fails. -/
theorem c8_notify_failure_witness :
    (handleSubmit ⟨fun _ => Except.error "up", fun _ => Except.error "smtp down", true, 9⟩
      ⟨some "n", some "c", none, none, []⟩ ⟨[], 0⟩).1 = Resp.serverError "smtp down" ∧
    Resp.statusCode (Resp.serverError "smtp down") = 500 ∧
    (handleSubmit ⟨fun _ => Except.error "up", fun _ => Except.error "smtp down", true, 9⟩
      ⟨some "n", some "c", none, none, []⟩ ⟨[], 0⟩).2.1
      = { rows := [⟨0, "n", "c", "",
            some (serializeStringArray (parseLinks none)),
            some (serializeStringArray []), 9, "pending"⟩],
          nextId := 1 } :=
  c8_notify_failure_after_persist _ _ _ (by decide) (by decide) [] [] (by decide) (by decide)
    "smtp down" (Or.inl rfl)

/-- Claim C9: a valid submission with truthy name and contact, falsy email,
empty links text and no attachments succeeds with the 200 success
response whenever the sends themselves do not fail (in particular when no
relay is configured); one row is persisted whose two columns are the
serialized empty array, which deserializes to the empty sequence, and no
customer acknowledgment mail is sent. -/
theorem c9_minimal_success (env : Env) (req : SubmitRequest) (st : Store)
    (hn : falsy req.name = false) (hc : falsy req.contact = false)
    (hemail : falsy req.email = true)
    (hlinks : req.links = none ∨ req.links = some "")
    (hfiles : req.files = [])
    (hsend : ∀ m, env.send m = Except.ok ()) :
    (handleSubmit env req st).1 = Resp.success ∧
    Resp.statusCode Resp.success = 200 ∧
    (handleSubmit env req st).2.1
      = { rows := st.rows ++
            [⟨st.nextId, req.name.getD "", req.contact.getD "", "",
              some (serializeStringArray []), some (serializeStringArray []),
              env.now, "pending"⟩],
          nextId := st.nextId + 1 } ∧
    serializeStringArray [] = "[]" ∧
    parseField (some (serializeStringArray [])) = Except.ok [] ∧
    (∀ s nm, Ev.sendMailEv (MailMsg.customer s nm) ∉ (handleSubmit env req st).2.2) := by
  have he : req.email.getD "" = "" := by
    cases hre : req.email with
    | none => rfl
    | some s =>
      rw [hre] at hemail
      rw [falsy] at hemail
      rw [Option.getD]
      exact eq_of_beq hemail
  have hlinks0 : parseLinks req.links = [] := by
    rcases hlinks with h | h <;> rw [h] <;> decide
  have hupload0 : uploadImages env.up req.files = ([], Except.ok []) := by
    rw [hfiles]
    rfl
  obtain ⟨mev, hno, hnc⟩ : ∃ mev,
      notifyStep env (req.name.getD "") (req.contact.getD "")
        (req.email.getD "") (parseLinks req.links) [] = (Except.ok (), mev) ∧
      ∀ s nm, Ev.sendMailEv (MailMsg.customer s nm) ∉ mev := by
    cases ht : env.transporterConfigured with
    | false =>
      refine ⟨[], notifyStep_not_configured _ _ _ _ _ _ ht, ?_⟩
      intro s nm h
      exact absurd h (by simp)
    | true =>
      refine ⟨[Ev.sendMailEv (MailMsg.internal (req.name.getD "") (req.contact.getD "")
        "" (parseLinks req.links) [])],
        notifyStep_internal_ok_no_email _ _ _ _ _ _ ht (hsend _) he, ?_⟩
      intro s nm h
      rw [List.mem_singleton] at h
      exact absurd h (by simp)
  refine ⟨?_, rfl, ?_, by decide, parseField_serializeStringArray [], ?_⟩
  · rw [handleSubmit_of_upload_ok env req st hn hc [] [] hupload0 _ _ hno]
  · rw [handleSubmit_store_ok env req st hn hc [] [] hupload0, he, hlinks0]
    rfl
  · intro s nm
    rw [handleSubmit_of_upload_ok env req st hn hc [] [] hupload0 _ _ hno]
    intro hmem
    rcases List.mem_append.mp hmem with h3 | h3
    · rcases List.mem_append.mp h3 with h4 | h4
      · exact absurd h4 (by simp)
      · exact absurd (List.mem_singleton.mp h4) (by simp)
    · exact hnc s nm h3

/-- Witness for c9_minimal_success: configured relay that accepts both
mails, name and contact given, everything else empty. -/
theorem c9_minimal_success_witness :
    (handleSubmit ⟨fun _ => Except.error "up", fun _ => Except.ok (), true, 2⟩
      ⟨some "n", some "c", some "", some "", []⟩ ⟨[], 0⟩).1 = Resp.success ∧
    Resp.statusCode Resp.success = 200 ∧
    (handleSubmit ⟨fun _ => Except.error "up", fun _ => Except.ok (), true, 2⟩
      ⟨some "n", some "c", some "", some "", []⟩ ⟨[], 0⟩).2.1
      = { rows := [⟨0, "n", "c", "", some (serializeStringArray []),
            some (serializeStringArray []), 2, "pending"⟩],
          nextId := 1 } ∧
    serializeStringArray [] = "[]" ∧
    parseField (some (serializeStringArray [])) = Except.ok [] ∧
    (∀ s nm, Ev.sendMailEv (MailMsg.customer s nm)
      ∉ (handleSubmit ⟨fun _ => Except.error "up", fun _ => Except.ok (), true, 2⟩
          ⟨some "n", some "c", some "", some "", []⟩ ⟨[], 0⟩).2.2) :=
  c9_minimal_success _ _ _ (by decide) (by decide) (by decide) (Or.inr rfl) rfl
    (fun _ => rfl)

/-- Claim C10: every row the submit workflow writes has both serialized
columns present and well-formed (the JSON serialization of a list of
strings) — handleSubmit preserves this invariant of the store — and on a
store all of whose rows satisfy it the admin listing's deserialization
always succeeds. -/
theorem c10_wf_invariant :
    (∀ (env : Env) (req : SubmitRequest) (st : Store),
      (∀ r ∈ st.rows, RowWF r) →
      ∀ r ∈ (handleSubmit env req st).2.1.rows, RowWF r) ∧
    (∀ st : Store, (∀ r ∈ st.rows, RowWF r) → ∃ ps, listAll st = Except.ok ps) := by
  constructor
  · intro env req st hwf r hr
    by_cases hval : (falsy req.name || falsy req.contact) = true
    · rw [handleSubmit, if_pos hval] at hr
      exact hwf r hr
    · have hn : falsy req.name = false := by
        rcases Bool.or_eq_false_iff.mp (Bool.not_eq_true _ |>.mp hval) with ⟨h1, h2⟩
        exact h1
      have hc : falsy req.contact = false := by
        rcases Bool.or_eq_false_iff.mp (Bool.not_eq_true _ |>.mp hval) with ⟨h1, h2⟩
        exact h2
      cases hu : uploadImages env.up req.files with
      | mk evs res =>
        cases res with
        | error e =>
          rw [handleSubmit, if_neg hval, hu] at hr
          exact hwf r hr
        | ok urls =>
          have hst := handleSubmit_store_ok env req st hn hc urls evs hu
          rw [hst] at hr
          rcases List.mem_append.mp hr with h1 | h2
          · exact hwf r h1
          · rw [List.mem_singleton] at h2
            subst h2
            exact ⟨⟨parseLinks req.links, rfl⟩, ⟨urls, rfl⟩⟩
  · intro st hwf
    have h2 : ∀ r ∈ submissionsSorted st, RowWF r := by
      intro r hr
      exact hwf r ((List.perm_insertionSort rowOrder st.rows).mem_iff.mp hr)
    obtain ⟨ps, hps⟩ := parseRows_ok_of_wf _ h2
    exact ⟨ps, hps⟩

/-- Witness for c10_wf_invariant: the listing of a well-formed singleton
store succeeds, and a handler run on it preserves well-formedness. -/
theorem c10_wf_invariant_witness :
    ∃ ps, listAll ⟨[⟨0, "n", "c", "", some (serializeStringArray ["http://a"]),
        some (serializeStringArray []), 1, "pending"⟩], 1⟩ = Except.ok ps :=
  c10_wf_invariant.2 _
    (fun r hr => by
      rw [List.mem_singleton] at hr
      subst hr
      exact ⟨⟨["http://a"], rfl⟩, ⟨[], rfl⟩⟩)
